import Mathlib

/-!
Verification of the metric-aggregation component of `omlet`
(`src/omlet/lightning/extended.py`, class `ExtendedModule`), against its
natural-language specification.

Conventions of the shallow embedding:
* Python floats become `ℚ` (the spec asks for exactness "within floating-point
  tolerance", which we realise exactly over the rationals).
* Python dicts become ordered association lists `List (String × α)` with
  first-match lookup (`alookup`), replace-in-place-or-append assignment
  (`aset`, the semantics of `d[k] = v` on a dict with unique keys) and
  `aupdate` for `d.update(other)`.
* Failing `assert` statements become `Option`-valued functions returning
  `none`.
-/

set_option autoImplicit false

namespace Omlet

/-- Stages of the training loop; mirrors `STAGES = ('train', 'val', 'test')`
in `omlet/lightning/extended.py`. -/
inductive Stage where
  | train
  | val
  | test
deriving DecidableEq

/-- The stage's name, used to build long metric names such as `train/loss`. -/
def stageName : Stage → String
  | .train => "train"
  | .val => "val"
  | .test => "test"

/-- First-match lookup in an association list; the embedding of `d[k]` /
`k in d` for a Python dict. -/
def alookup {α : Type} : List (String × α) → String → Option α
  | [], _ => none
  | (k1, v) :: rest, k => if k1 = k then some v else alookup rest k

/-- Replace the first binding of `k` (keeping its position), or append a new
binding; the embedding of `d[k] = v` for a Python dict with unique keys. -/
def aset {α : Type} : List (String × α) → String → α → List (String × α)
  | [], k, v => [(k, v)]
  | (k1, v1) :: rest, k, v =>
    if k1 = k then (k, v) :: rest else (k1, v1) :: aset rest k v

/-- The embedding of `d.update(other)`: fold `aset` over the new bindings in
order. -/
def aupdate {α : Type} (l : List (String × α)) : List (String × α) → List (String × α)
  | [] => l
  | p :: rest => aupdate (aset l p.1 p.2) rest

/-- Modelled from the spec: class `omlet.utils.AverageMeter` is not under
`src/` (only its callers in `omlet/lightning/extended.py` are). Spec, data
model: a Metric Meter is a "per (stage, metric-name) running weighted average.
Attributes: accumulated weighted sum, accumulated weight (sample count),
current average value". -/
structure AverageMeter where
  sum : ℚ
  count : ℚ
  avg : ℚ
deriving DecidableEq

/-- Modelled from the spec: a freshly constructed meter (as built by
`U.AverageMeter()` in `ExtendedModule.__init__`) is zeroed, the same state
`reset` produces. -/
def AverageMeter.init : AverageMeter := ⟨0, 0, 0⟩

/-- Modelled from the spec: "reset(stage): zeroes all meters". -/
def AverageMeter.reset (_m : AverageMeter) : AverageMeter := AverageMeter.init

/-- Modelled from the spec: `update` "folds one observation into the running
average" and "Fails (signals an error) if weight <= 0"; the meter keeps the
accumulated weighted sum, the accumulated weight, and the current average,
which "is always the weighted mean of all updates since its last reset". -/
def AverageMeter.update (m : AverageMeter) (value weight : ℚ) : Option AverageMeter :=
  if weight ≤ 0 then none
  else
    some { sum := m.sum + value * weight
           count := m.count + weight
           avg := (m.sum + value * weight) / (m.count + weight) }

/-- Modelled from the spec: the "current average value" attribute, read by
`_get_avg_epoch_metrics` as `meter.value`. -/
def AverageMeter.value (m : AverageMeter) : ℚ := m.avg

/-- Folding a whole list of `(value, weight)` observations into one meter. -/
def AverageMeter.foldUpdates (m : AverageMeter) : List (ℚ × ℚ) → Option AverageMeter
  | [] => some m
  | p :: rest =>
    match m.update p.1 p.2 with
    | none => none
    | some m1 => m1.foldUpdates rest

/-- The per-stage meter dicts `self._metrics_meter`, one association list per
stage (`ExtendedModule.__init__`, line 96). -/
structure Meters where
  trainMeters : List (String × AverageMeter)
  valMeters : List (String × AverageMeter)
  testMeters : List (String × AverageMeter)
deriving DecidableEq

/-- The embedding of `self._metrics_meter[stage]`. -/
def Meters.get (ms : Meters) : Stage → List (String × AverageMeter)
  | .train => ms.trainMeters
  | .val => ms.valMeters
  | .test => ms.testMeters

/-- Replace one stage's meter dict. -/
def Meters.set (ms : Meters) : Stage → List (String × AverageMeter) → Meters
  | .train, l => { ms with trainMeters := l }
  | .val, l => { ms with valMeters := l }
  | .test, l => { ms with testMeters := l }

/-- `{m: U.AverageMeter() for m in names}` (`ExtendedModule.__init__`,
line 96): one fresh meter per configured metric name. -/
def freshMeters (names : List String) : List (String × AverageMeter) :=
  names.map (fun n => (n, AverageMeter.init))

/-- Shallow embedding of one iteration of the loop in
`ExtendedModule._update_epoch_metrics` (extended.py lines 349-352) for a
single output key: if the key is among the stage's meters, fold the value
into that meter, otherwise do nothing; `none` propagates a meter-update
failure (non-positive weight). -/
def updateOneMetric (ms : List (String × AverageMeter)) (name : String) (v w : ℚ) :
    Option (List (String × AverageMeter)) :=
  match alookup ms name with
  | none => some ms
  | some meter =>
    match meter.update v w with
    | none => none
    | some meter1 => some (aset ms name meter1)

/-- Shallow embedding of `ExtendedModule._update_epoch_metrics` (extended.py
lines 349-352): fold every key of the step's output dict into the stage's
meters with the batch size as weight. -/
def updateEpochMetrics (ms : List (String × AverageMeter))
    (output : List (String × ℚ)) (batchSize : ℚ) :
    Option (List (String × AverageMeter)) :=
  match output with
  | [] => some ms
  | p :: rest =>
    match updateOneMetric ms p.1 p.2 batchSize with
    | none => none
    | some ms1 => updateEpochMetrics ms1 rest batchSize

/-- Shallow embedding of `ExtendedModule._get_avg_epoch_metrics` (extended.py
lines 337-341) with the default name template (the identity on names): the
dict of current meter values for one stage. This is the spec's
`epoch_average(stage)`. -/
def getAvgEpochMetrics (ms : List (String × AverageMeter)) : List (String × ℚ) :=
  ms.map (fun p => (p.1, AverageMeter.value p.2))

/-- The inner loop of `ExtendedModule._reset_epoch_metrics` (extended.py
lines 328-331): `meter.reset()` for every meter of one stage. -/
def resetMeters (ms : List (String × AverageMeter)) : List (String × AverageMeter) :=
  ms.map (fun p => (p.1, AverageMeter.reset p.2))

/-- `_reset_epoch_metrics(stage)` for a single stage (the `[stages]` branch
of extended.py line 329). This is the spec's `reset(stage)`. -/
def Meters.resetStage (ms : Meters) (stage : Stage) : Meters :=
  ms.set stage (resetMeters (ms.get stage))

/-- `_reset_epoch_metrics('all')` (the default branch of extended.py line
329), as called from `on_epoch_start`. -/
def Meters.resetAll (ms : Meters) : Meters :=
  ⟨resetMeters ms.trainMeters, resetMeters ms.valMeters, resetMeters ms.testMeters⟩

/-- One `update(stage, metric_name, value, weight)` call of the spec, acting
on the stage-indexed meter state: the loop body of `_update_epoch_metrics`
applied to `self._metrics_meter[stage]`. -/
def updateStageMetric (ms : Meters) (stage : Stage) (name : String) (v w : ℚ) :
    Option Meters :=
  match updateOneMetric (ms.get stage) name v w with
  | none => none
  | some l => some (ms.set stage l)

/-- A sequence of `update(stage, name, value, weight)` calls against one
stage, each call a `(name, value, weight)` triple, failing as soon as one
call fails. -/
def runStageUpdates (ms : Meters) (stage : Stage) :
    List (String × ℚ × ℚ) → Option Meters
  | [] => some ms
  | c :: rest =>
    match updateStageMetric ms stage c.1 c.2.1 c.2.2 with
    | none => none
    | some ms1 => runStageUpdates ms1 stage rest

/-- Same sequence of update calls, viewed on a single stage's meter dict. -/
def runUpdates (ms : List (String × AverageMeter)) :
    List (String × ℚ × ℚ) → Option (List (String × AverageMeter))
  | [] => some ms
  | c :: rest =>
    match updateOneMetric ms c.1 c.2.1 c.2.2 with
    | none => none
    | some ms1 => runUpdates ms1 rest

/-- The `(value, weight)` observations a call sequence supplies for one
metric name. -/
def callsFor (calls : List (String × ℚ × ℚ)) (m : String) : List (ℚ × ℚ) :=
  (calls.filter (fun c => c.1 == m)).map (fun c => c.2)

/-- Sum of `value * weight` over a list of observations. -/
def weightedSum (l : List (ℚ × ℚ)) : ℚ := (l.map (fun p => p.1 * p.2)).sum

/-- Sum of the weights of a list of observations. -/
def totalWeight (l : List (ℚ × ℚ)) : ℚ := (l.map (fun p => p.2)).sum

/-- One entry of `self._best_metrics_values` (extended.py line 92): the best
value seen so far for a tracked metric and the epoch it occurred at. -/
structure BestInfo where
  value : ℚ
  epoch : ℕ
deriving DecidableEq

/-- Shallow embedding of `ExtendedModule._update_best_metrics` (extended.py
lines 359-371). `none` models the failing
`assert metric_name in self._best_metrics_spec`; otherwise the first
observation for a metric is stored unconditionally, and a later observation
overwrites the stored value and epoch exactly when
`is_max and new >= best or not is_max and new <= best`. -/
def updateBestMetrics (spec : List (String × String)) (bests : List (String × BestInfo))
    (name : String) (newValue : ℚ) (currentEpoch : ℕ) :
    Option (List (String × BestInfo)) :=
  match alookup spec name with
  | none => none
  | some dir =>
    match alookup bests name with
    | none => some (aset bests name ⟨newValue, currentEpoch⟩)
    | some info =>
      if dir = "max" ∧ info.value ≤ newValue ∨ ¬dir = "max" ∧ newValue ≤ info.value then
        some (aset bests name ⟨newValue, currentEpoch⟩)
      else
        some bests

/-- One entry of `self._metrics_history` (extended.py lines 277-280): the
epoch index together with one sub-dict of averaged metrics per stage. -/
structure EpochRecord where
  epoch : ℕ
  trainInfo : List (String × ℚ)
  valInfo : List (String × ℚ)
  testInfo : List (String × ℚ)
deriving DecidableEq

/-- `{'epoch': e, 'train': {}, 'val': {}, 'test': {}}` (extended.py lines
277-280). -/
def EpochRecord.empty (e : ℕ) : EpochRecord := ⟨e, [], [], []⟩

/-- The record's sub-dict for one stage. -/
def EpochRecord.getStage (r : EpochRecord) : Stage → List (String × ℚ)
  | .train => r.trainInfo
  | .val => r.valInfo
  | .test => r.testInfo

/-- Replace the record's sub-dict for one stage. -/
def EpochRecord.setStage (r : EpochRecord) : Stage → List (String × ℚ) → EpochRecord
  | .train, l => { r with trainInfo := l }
  | .val, l => { r with valInfo := l }
  | .test, l => { r with testInfo := l }

/-- `record[stage].update(info)` (extended.py lines 281 and 284). -/
def EpochRecord.updateStage (r : EpochRecord) (stage : Stage)
    (info : List (String × ℚ)) : EpochRecord :=
  r.setStage stage (aupdate (r.getStage stage) info)

/-- Shallow embedding of the Epoch-Record bookkeeping of
`ExtendedModule._epoch_end` (extended.py lines 276-284), the spec's
`record_epoch(epoch_index, stage, averages)`: if the history is empty or its
last record's epoch differs from the current one, append a fresh record (all
three stage sub-dicts empty) updated with this stage's averages; otherwise
merge the averages into the last record's sub-dict for this stage. -/
def recordEpoch (history : List EpochRecord) (e : ℕ) (stage : Stage)
    (info : List (String × ℚ)) : List EpochRecord :=
  match history.getLast? with
  | none => history ++ [(EpochRecord.empty e).updateStage stage info]
  | some last =>
    if last.epoch = e then
      history.dropLast ++ [last.updateStage stage info]
    else
      history ++ [(EpochRecord.empty e).updateStage stage info]

/-- A sequence of `record_epoch` calls, each an
`(epoch_index, stage, averages)` triple. -/
def runRecords (history : List EpochRecord) :
    List (ℕ × Stage × List (String × ℚ)) → List EpochRecord
  | [] => history
  | op :: rest => runRecords (recordEpoch history op.1 op.2.1 op.2.2) rest

/-- The mutable state of `ExtendedModule` that the metric aggregator touches:
the per-stage meters, the epoch history, the (immutable) best-metric spec,
the best values seen so far, and the `_is_training_started` flag
(extended.py lines 89-104). -/
structure ModuleState where
  meters : Meters
  history : List EpochRecord
  bestSpec : List (String × String)
  bestValues : List (String × BestInfo)
  isTrainingStarted : Bool
deriving DecidableEq

/-- The construction-time validation loop of `ExtendedModule.__init__`
(extended.py lines 100-102): every best-metric entry must have a `/` in its
name and a direction of exactly `min` or `max`. -/
def validBestSpec (spec : List (String × String)) : Bool :=
  spec.all (fun p => p.1.toList.contains '/' && (p.2 == "min" || p.2 == "max"))

/-- Shallow embedding of the aggregator-relevant part of
`ExtendedModule.__init__` (extended.py lines 89-104): build fresh meters for
the configured names of each stage, start with empty history and best values
and a cleared training-started flag; `none` models the failing asserts of
lines 100-102 (construction raises, no object is produced). -/
def mkModule (trainNames valNames testNames : List String)
    (bestSpec : List (String × String)) : Option ModuleState :=
  if validBestSpec bestSpec then
    some { meters := ⟨freshMeters trainNames, freshMeters valNames, freshMeters testNames⟩
           history := []
           bestSpec := bestSpec
           bestValues := []
           isTrainingStarted := false }
  else none

/-- Shallow embedding of the state effect of `ExtendedModule._epoch_end`
(extended.py lines 262-305) in the single-process case (`self.reduce` is the
identity when DDP is off, line 325). The returned progress-bar/log dicts are
output only and are not modelled; the stage-prefix assertion of line 292 can
only fire for metric names that themselves contain a slash and is outside
the scope of the claims, which concern the recorded state. When
`_is_training_started` is false (the validation sanity check), the whole
block of lines 275-295 is skipped and the state is untouched. -/
def epochEnd (s : ModuleState) (stage : Stage) (currentEpoch : ℕ) : ModuleState :=
  let info := getAvgEpochMetrics (s.meters.get stage)
  let infoLong := info.map (fun p => (stageName stage ++ "/" ++ p.1, p.2))
  if s.isTrainingStarted then
    { s with
      history := recordEpoch s.history currentEpoch stage info
      bestValues := infoLong.foldl
        (fun acc p =>
          if (alookup s.bestSpec p.1).isSome then
            (updateBestMetrics s.bestSpec acc p.1 p.2 currentEpoch).getD acc
          else acc)
        s.bestValues }
  else s

/-- Shallow embedding of `ExtendedModule.on_epoch_start` (extended.py lines
388-391): reset every stage's meters and raise the training-started flag. -/
def onEpochStart (s : ModuleState) : ModuleState :=
  { s with meters := s.meters.resetAll, isTrainingStarted := true }

/-! Basic facts about the association-list operations. -/

theorem alookup_aset_self {α : Type} (l : List (String × α)) (k : String) (v : α) :
    alookup (aset l k v) k = some v := by
  induction l with
  | nil => simp [aset, alookup]
  | cons p rest ih =>
    obtain ⟨k1, v1⟩ := p
    by_cases h : k1 = k
    · simp [aset, h, alookup]
    · simp [aset, h, alookup, ih]

theorem alookup_aset_ne {α : Type} (l : List (String × α)) (k k' : String) (v : α)
    (h : k' ≠ k) : alookup (aset l k v) k' = alookup l k' := by
  induction l with
  | nil => simp [aset, alookup, Ne.symm h]
  | cons p rest ih =>
    obtain ⟨k1, v1⟩ := p
    by_cases h1 : k1 = k
    · subst h1
      simp [aset, alookup, Ne.symm h]
    · by_cases h2 : k1 = k'
      · simp [aset, alookup, h1, h2, h]
      · simp [aset, alookup, h1, h2, ih]

theorem alookup_map_snd {α β : Type} (f : α → β) (l : List (String × α)) (k : String) :
    alookup (l.map (fun p => (p.1, f p.2))) k = (alookup l k).map f := by
  induction l with
  | nil => simp [alookup]
  | cons p rest ih => by_cases h : p.1 = k <;> simp [alookup, h, ih]

theorem aset_of_not_mem_keys {α : Type} (l : List (String × α)) (k : String) (v : α)
    (h : k ∉ l.map Prod.fst) : aset l k v = l ++ [(k, v)] := by
  induction l with
  | nil => rfl
  | cons p rest ih =>
    have h1 : ¬p.1 = k := by
      intro he
      exact h (by simp [he])
    have h2 : k ∉ rest.map Prod.fst := by
      intro hm
      exact h (by simp [hm])
    simp [aset, h1, ih h2]

theorem aupdate_append_of_disjoint {α : Type} (u : List (String × α)) :
    ∀ l : List (String × α), (u.map Prod.fst).Nodup →
      (∀ k ∈ u.map Prod.fst, k ∉ l.map Prod.fst) → aupdate l u = l ++ u := by
  induction u with
  | nil => intro l _ _; simp [aupdate]
  | cons p rest ih =>
    intro l hn hd
    rw [List.map_cons, List.nodup_cons] at hn
    obtain ⟨hp1, hn2⟩ := hn
    have hp : p.1 ∉ l.map Prod.fst := hd p.1 (by simp)
    have hs : aset l p.1 p.2 = l ++ [(p.1, p.2)] := aset_of_not_mem_keys l p.1 p.2 hp
    have step : aupdate l (p :: rest) = aupdate (l ++ [p]) rest := by
      simp [aupdate, hs]
    have hdisj : ∀ k ∈ rest.map Prod.fst, k ∉ (l ++ [p]).map Prod.fst := by
      intro k hk
      simp only [List.map_append, List.mem_append, List.map_cons, List.map_nil, not_or]
      refine ⟨hd k (by simp [hk]), ?_⟩
      simp only [List.mem_cons, List.not_mem_nil, or_false]
      intro hc
      exact hp1 (hc ▸ hk)
    rw [step, ih (l ++ [p]) hn2 hdisj]
    simp

theorem aupdate_nil_of_nodup {α : Type} (u : List (String × α))
    (hn : (u.map Prod.fst).Nodup) : aupdate [] u = u := by
  have := aupdate_append_of_disjoint u [] hn (by simp)
  simpa using this

/-! Basic facts about the stage-indexed meter state. -/

theorem Meters.get_set_self (ms : Meters) (stage : Stage)
    (l : List (String × AverageMeter)) : (ms.set stage l).get stage = l := by
  cases stage <;> rfl

theorem Meters.set_set (ms : Meters) (stage : Stage)
    (l1 l2 : List (String × AverageMeter)) :
    (ms.set stage l1).set stage l2 = ms.set stage l2 := by
  cases stage <;> rfl

theorem Meters.set_get (ms : Meters) (stage : Stage) :
    ms.set stage (ms.get stage) = ms := by
  cases stage <;> rfl

/-- Claim C5: for every stage and every metric name not among the meters
configured for that stage (no binding in that stage's meter dict),
`update(stage, name, value, weight)` is a no-op: it does not fail and the
whole meter state — hence `epoch_average(stage)` for every configured
meter — is unchanged. -/
theorem update_unknown_metric_noop (ms : Meters) (stage : Stage) (name : String)
    (v w : ℚ) (h : alookup (ms.get stage) name = none) :
    updateStageMetric ms stage name v w = some ms ∧
    (updateStageMetric ms stage name v w).map (fun ms1 => getAvgEpochMetrics (ms1.get stage))
      = some (getAvgEpochMetrics (ms.get stage)) := by
  have h1 : updateStageMetric ms stage name v w = some ms := by
    simp [updateStageMetric, updateOneMetric, h, Meters.set_get]
  exact ⟨h1, by simp [h1]⟩

/-- Witness for C5 at a concrete input: updating the unconfigured metric
`unknown_metric` in a one-meter train stage leaves the state unchanged. -/
theorem update_unknown_metric_noop_witness :
    updateStageMetric ⟨[("loss", AverageMeter.init)], [], []⟩ Stage.train
        "unknown_metric" 1 1
      = some ⟨[("loss", AverageMeter.init)], [], []⟩ :=
  (update_unknown_metric_noop ⟨[("loss", AverageMeter.init)], [], []⟩ Stage.train
    "unknown_metric" 1 1 (by simp [Meters.get, alookup])).1

/-- Claim C6: for every metric name absent from the Best-Metric Spec,
`update_best(metric_name, value, epoch_index)` fails at call time (the
`assert metric_name in self._best_metrics_spec` of extended.py line 360). -/
theorem update_best_unknown_fails (spec : List (String × String))
    (bests : List (String × BestInfo)) (name : String) (v : ℚ) (e : ℕ)
    (h : alookup spec name = none) :
    updateBestMetrics spec bests name v e = none := by
  simp [updateBestMetrics, h]

/-- Witness for C6 at a concrete input: `missing/metric` is absent from the
spec `{"val/acc": "max"}`, so the update fails. -/
theorem update_best_unknown_fails_witness :
    updateBestMetrics [("val/acc", "max")] [] "missing/metric" 1 1 = none :=
  update_best_unknown_fails [("val/acc", "max")] [] "missing/metric" 1 1 (by
    simp [alookup])

/-- Claim C7: for every stage, every metric name configured for that stage,
and every weight `w ≤ 0`, `update(stage, name, value, w)` fails at call
time (the meter's non-positive-weight check). -/
theorem update_nonpositive_weight_fails (ms : Meters) (stage : Stage) (name : String)
    (mm : AverageMeter) (v w : ℚ) (hconf : alookup (ms.get stage) name = some mm)
    (hw : w ≤ 0) :
    updateStageMetric ms stage name v w = none := by
  simp [updateStageMetric, updateOneMetric, hconf, AverageMeter.update, hw]

/-- Witness for C7 at a concrete input: a zero weight for the configured
metric `loss` fails. -/
theorem update_nonpositive_weight_fails_witness :
    updateStageMetric ⟨[("loss", AverageMeter.init)], [], []⟩ Stage.train "loss" 1 0
      = none :=
  update_nonpositive_weight_fails ⟨[("loss", AverageMeter.init)], [], []⟩ Stage.train
    "loss" AverageMeter.init 1 0 (by simp [Meters.get, alookup]) le_rfl

/-- Claim C9: for every stage, `reset(stage)` followed by
`epoch_average(stage)` yields the zeroed average for every meter configured
for that stage, whatever was accumulated before the reset: the result
depends only on the configured names, every value being `0`. -/
theorem reset_then_epoch_average_zeroed (ms : Meters) (stage : Stage) :
    getAvgEpochMetrics ((ms.resetStage stage).get stage)
      = (ms.get stage).map (fun p => (p.1, (0 : ℚ))) := by
  rw [Meters.resetStage, Meters.get_set_self]
  simp [getAvgEpochMetrics, resetMeters, AverageMeter.reset, AverageMeter.value,
    AverageMeter.init, List.map_map, Function.comp]

/-- Claim C10: before training has started (the `_is_training_started` flag
is false, as during the validation sanity check), an epoch-end pass leaves
both the Epoch Record history and the best-metric values unchanged. -/
theorem epoch_end_noop_before_training (s : ModuleState) (stage : Stage) (e : ℕ)
    (h : s.isTrainingStarted = false) :
    (epochEnd s stage e).history = s.history ∧
    (epochEnd s stage e).bestValues = s.bestValues := by
  constructor <;> simp [epochEnd, h]

/-- Witness for C10 at a concrete input: an epoch-end pass on a fresh module
state (flag still false) records nothing. -/
theorem epoch_end_noop_before_training_witness :
    (epochEnd ⟨⟨[("loss", AverageMeter.init)], [], []⟩, [], [("val/acc", "max")], [],
        false⟩ Stage.train 0).history = [] ∧
    (epochEnd ⟨⟨[("loss", AverageMeter.init)], [], []⟩, [], [("val/acc", "max")], [],
        false⟩ Stage.train 0).bestValues = [] :=
  epoch_end_noop_before_training
    ⟨⟨[("loss", AverageMeter.init)], [], []⟩, [], [("val/acc", "max")], [], false⟩
    Stage.train 0 rfl

/-- Claim C2: `update_best` always accepts the first observation for a
tracked metric; a later observation replaces the stored best value and its
epoch exactly when it is at least as good under the configured direction
(`>=` the stored best for `max`, `<=` for `min`); a tied value keeps the
best value and moves the recorded epoch to the newer occurrence; a strictly
worse value leaves the stored map — value and epoch — untouched. -/
theorem update_best_semantics (spec : List (String × String))
    (bests : List (String × BestInfo)) (name dir : String) (v : ℚ) (e : ℕ)
    (hs : alookup spec name = some dir) (hdir : dir = "max" ∨ dir = "min") :
    (alookup bests name = none →
      ∃ b1, updateBestMetrics spec bests name v e = some b1 ∧
        alookup b1 name = some ⟨v, e⟩) ∧
    (∀ info, alookup bests name = some info →
      ((dir = "max" ∧ info.value ≤ v ∨ dir = "min" ∧ v ≤ info.value) →
        ∃ b1, updateBestMetrics spec bests name v e = some b1 ∧
          alookup b1 name = some ⟨v, e⟩) ∧
      (v = info.value →
        ∃ b1, updateBestMetrics spec bests name v e = some b1 ∧
          alookup b1 name = some ⟨info.value, e⟩) ∧
      (¬(dir = "max" ∧ info.value ≤ v ∨ dir = "min" ∧ v ≤ info.value) →
        updateBestMetrics spec bests name v e = some bests)) := by
  have hms : ("max" : String) ≠ "min" := by decide
  have hsm : ("min" : String) ≠ "max" := by decide
  constructor
  · intro h0
    refine ⟨aset bests name ⟨v, e⟩, ?_, alookup_aset_self bests name ⟨v, e⟩⟩
    simp [updateBestMetrics, hs, h0]
  · intro info hi
    have hcond : (dir = "max" ∧ info.value ≤ v ∨ ¬dir = "max" ∧ v ≤ info.value)
        ↔ (dir = "max" ∧ info.value ≤ v ∨ dir = "min" ∧ v ≤ info.value) := by
      rcases hdir with h | h <;> subst h <;> simp [hms, hsm]
    refine ⟨?_, ?_, ?_⟩
    · intro hacc
      refine ⟨aset bests name ⟨v, e⟩, ?_, alookup_aset_self bests name ⟨v, e⟩⟩
      simp only [updateBestMetrics, hs, hi]
      rw [if_pos (hcond.mpr hacc)]
    · intro hv
      subst hv
      have hc2 : dir = "max" ∧ info.value ≤ info.value
          ∨ ¬dir = "max" ∧ info.value ≤ info.value := by
        rcases hdir with h | h <;> subst h <;> simp [hms, hsm]
      refine ⟨aset bests name ⟨info.value, e⟩, ?_,
        alookup_aset_self bests name ⟨info.value, e⟩⟩
      simp only [updateBestMetrics, hs, hi]
      rw [if_pos hc2]
    · intro hrej
      simp only [updateBestMetrics, hs, hi]
      rw [if_neg (fun hc => hrej (hcond.mp hc))]

/-- Witness for C2 at a concrete input: the first observation `10` for
`val/acc` (direction `max`) is stored with its epoch. -/
theorem update_best_semantics_witness :
    ∃ b1, updateBestMetrics [("val/acc", "max")] [] "val/acc" 10 1 = some b1 ∧
      alookup b1 "val/acc" = some ⟨10, 1⟩ :=
  (update_best_semantics [("val/acc", "max")] [] "val/acc" "max" 10 1 rfl
    (Or.inl rfl)).1 rfl

/-- Claim C3: `record_epoch(e, stage, info)` merges into the most recent
record when that record carries the same epoch index — overwriting the
stage's sub-mapping with the supplied averages and creating no new record —
and appends a fresh record otherwise; hence recording two different stages
for the same epoch index yields exactly one record holding both stages'
data. -/
theorem record_epoch_merge_or_append (history : List EpochRecord) (e : ℕ)
    (stage : Stage) (info : List (String × ℚ)) :
    (∀ last, history.getLast? = some last → last.epoch = e →
      recordEpoch history e stage info
          = history.dropLast ++ [last.updateStage stage info] ∧
      (recordEpoch history e stage info).length = history.length) ∧
    ((∀ last, history.getLast? = some last → last.epoch ≠ e) →
      recordEpoch history e stage info
        = history ++ [(EpochRecord.empty e).updateStage stage info]) ∧
    (∀ a b, (∀ last, history.getLast? = some last → last.epoch ≠ e) →
      (a.map Prod.fst).Nodup → (b.map Prod.fst).Nodup →
      recordEpoch (recordEpoch history e Stage.train a) e Stage.val b
          = history ++ [⟨e, a, b, []⟩] ∧
      (recordEpoch (recordEpoch history e Stage.train a) e Stage.val b).length
          = history.length + 1) := by
  refine ⟨?_, ?_, ?_⟩
  · intro last hl he
    have hnil : history ≠ [] := by
      intro h
      subst h
      simp at hl
    have heq : recordEpoch history e stage info
        = history.dropLast ++ [last.updateStage stage info] := by
      simp [recordEpoch, hl, he]
    refine ⟨heq, ?_⟩
    rw [heq]
    have hpos : 0 < history.length := List.length_pos.mpr hnil
    simp [List.length_dropLast]
    omega
  · intro hne
    cases hh : history.getLast? with
    | none => simp [recordEpoch, hh]
    | some last => simp [recordEpoch, hh, hne last hh]
  · intro a b hne ha hb
    have h1 : recordEpoch history e Stage.train a
        = history ++ [(EpochRecord.empty e).updateStage Stage.train a] := by
      cases hh : history.getLast? with
      | none => simp [recordEpoch, hh]
      | some last => simp [recordEpoch, hh, hne last hh]
    have hr1 : (EpochRecord.empty e).updateStage Stage.train a = ⟨e, a, [], []⟩ := by
      simp [EpochRecord.updateStage, EpochRecord.empty, EpochRecord.getStage,
        EpochRecord.setStage, aupdate_nil_of_nodup a ha]
    have h2 : recordEpoch (history ++ [(⟨e, a, [], []⟩ : EpochRecord)]) e Stage.val b
        = history ++ [⟨e, a, b, []⟩] := by
      have hl : (history ++ [(⟨e, a, [], []⟩ : EpochRecord)]).getLast?
          = some ⟨e, a, [], []⟩ := List.getLast?_concat _
      simp [recordEpoch, hl, EpochRecord.updateStage, EpochRecord.getStage,
        EpochRecord.setStage, aupdate_nil_of_nodup b hb, List.dropLast_concat]
    rw [h1, hr1, h2]
    exact ⟨rfl, by simp⟩

/-- Witness for C3 at a concrete input: recording `train` then `val` data for
epoch 3 into an empty history yields a single record with both stages. -/
theorem record_epoch_merge_or_append_witness :
    recordEpoch (recordEpoch [] 3 Stage.train [("loss", 1)]) 3 Stage.val [("acc", 2)]
        = [⟨3, [("loss", 1)], [("acc", 2)], []⟩] ∧
    (recordEpoch (recordEpoch [] 3 Stage.train [("loss", 1)]) 3 Stage.val
        [("acc", 2)]).length = 1 :=
  (record_epoch_merge_or_append [] 3 Stage.val [("acc", 2)]).2.2
    [("loss", 1)] [("acc", 2)] (by intro last hl; simp at hl) (by simp) (by simp)

/-! Lemmas for the weighted-mean property of a meter under a sequence of
updates. -/

theorem foldUpdates_spec (l : List (ℚ × ℚ)) :
    ∀ m : AverageMeter, (∀ p ∈ l, 0 < p.2) →
      ∃ m1, m.foldUpdates l = some m1 ∧
        m1.sum = m.sum + weightedSum l ∧
        m1.count = m.count + totalWeight l ∧
        (l ≠ [] → m1.avg = m1.sum / m1.count) ∧
        (l = [] → m1 = m) := by
  induction l with
  | nil =>
    intro m _
    exact ⟨m, rfl, by simp [weightedSum], by simp [totalWeight], by simp,
      fun _ => rfl⟩
  | cons p rest ih =>
    intro m hw
    have hp : 0 < p.2 := hw p (by simp)
    have hup : m.update p.1 p.2 = some
        ⟨m.sum + p.1 * p.2, m.count + p.2, (m.sum + p.1 * p.2) / (m.count + p.2)⟩ := by
      simp [AverageMeter.update, not_le.mpr hp]
    obtain ⟨m1, hrun, hsum, hcount, havg, hid⟩ :=
      ih ⟨m.sum + p.1 * p.2, m.count + p.2, (m.sum + p.1 * p.2) / (m.count + p.2)⟩
        (fun q hq => hw q (by simp [hq]))
    refine ⟨m1, ?_, ?_, ?_, ?_, ?_⟩
    · simp [AverageMeter.foldUpdates, hup, hrun]
    · rw [hsum]
      simp only [weightedSum, List.map_cons, List.sum_cons]
      ring
    · rw [hcount]
      simp only [totalWeight, List.map_cons, List.sum_cons]
      ring
    · intro _
      cases hrest : rest with
      | nil =>
        rw [hid hrest]
      | cons q qs =>
        exact havg (by simp [hrest])
    · intro h
      exact absurd h (List.cons_ne_nil p rest)

theorem runUpdates_alookup (calls : List (String × ℚ × ℚ)) (m : String) :
    ∀ (ms : List (String × AverageMeter)) (mm : AverageMeter),
      alookup ms m = some mm → (∀ c ∈ calls, 0 < c.2.2) →
      ∃ ms1 mm1, runUpdates ms calls = some ms1 ∧ alookup ms1 m = some mm1 ∧
        mm.foldUpdates (callsFor calls m) = some mm1 := by
  induction calls with
  | nil =>
    intro ms mm hm _
    exact ⟨ms, mm, rfl, hm, rfl⟩
  | cons c rest ih =>
    intro ms mm hm hw
    have hpos : 0 < c.2.2 := hw c (by simp)
    have hw' : ∀ q ∈ rest, 0 < q.2.2 := fun q hq => hw q (by simp [hq])
    by_cases hc : c.1 = m
    · have hlc : alookup ms c.1 = some mm := by rw [hc]; exact hm
      have hup : mm.update c.2.1 c.2.2 = some
          ⟨mm.sum + c.2.1 * c.2.2, mm.count + c.2.2,
            (mm.sum + c.2.1 * c.2.2) / (mm.count + c.2.2)⟩ := by
        simp [AverageMeter.update, not_le.mpr hpos]
      have hone : updateOneMetric ms c.1 c.2.1 c.2.2
          = some (aset ms c.1
              ⟨mm.sum + c.2.1 * c.2.2, mm.count + c.2.2,
                (mm.sum + c.2.1 * c.2.2) / (mm.count + c.2.2)⟩) := by
        simp [updateOneMetric, hlc, hup]
      have hlook : alookup (aset ms c.1
          ⟨mm.sum + c.2.1 * c.2.2, mm.count + c.2.2,
            (mm.sum + c.2.1 * c.2.2) / (mm.count + c.2.2)⟩) m
          = some ⟨mm.sum + c.2.1 * c.2.2, mm.count + c.2.2,
              (mm.sum + c.2.1 * c.2.2) / (mm.count + c.2.2)⟩ := by
        rw [← hc]
        exact alookup_aset_self ms c.1 _
      obtain ⟨ms1, mm1, hr, hl1, hf⟩ := ih _ _ hlook hw'
      refine ⟨ms1, mm1, ?_, hl1, ?_⟩
      · simp [runUpdates, hone, hr]
      · have hfilter : callsFor (c :: rest) m = c.2 :: callsFor rest m := by
          simp [callsFor, hc]
        rw [hfilter]
        simp [AverageMeter.foldUpdates, hup, hf]
    · have hfilter : callsFor (c :: rest) m = callsFor rest m := by
        simp [callsFor, hc]
      cases hlc : alookup ms c.1 with
      | none =>
        obtain ⟨ms1, mm1, hr, hl1, hf⟩ := ih ms mm hm hw'
        refine ⟨ms1, mm1, ?_, hl1, ?_⟩
        · simp [runUpdates, updateOneMetric, hlc, hr]
        · rw [hfilter]; exact hf
      | some meter =>
        have hup : meter.update c.2.1 c.2.2 = some
            ⟨meter.sum + c.2.1 * c.2.2, meter.count + c.2.2,
              (meter.sum + c.2.1 * c.2.2) / (meter.count + c.2.2)⟩ := by
          simp [AverageMeter.update, not_le.mpr hpos]
        have hm' : alookup (aset ms c.1
            ⟨meter.sum + c.2.1 * c.2.2, meter.count + c.2.2,
              (meter.sum + c.2.1 * c.2.2) / (meter.count + c.2.2)⟩) m
            = some mm := by
          rw [alookup_aset_ne ms c.1 m _ (fun h => hc h.symm)]
          exact hm
        obtain ⟨ms1, mm1, hr, hl1, hf⟩ := ih _ _ hm' hw'
        refine ⟨ms1, mm1, ?_, hl1, ?_⟩
        · simp [runUpdates, updateOneMetric, hlc, hup, hr]
        · rw [hfilter]; exact hf

theorem runStageUpdates_eq (calls : List (String × ℚ × ℚ)) :
    ∀ (ms : Meters) (stage : Stage),
      runStageUpdates ms stage calls
        = (runUpdates (ms.get stage) calls).map (ms.set stage) := by
  induction calls with
  | nil =>
    intro ms stage
    simp [runStageUpdates, runUpdates, Meters.set_get]
  | cons c rest ih =>
    intro ms stage
    cases hu : updateOneMetric (ms.get stage) c.1 c.2.1 c.2.2 with
    | none => simp [runStageUpdates, runUpdates, updateStageMetric, hu]
    | some l1 =>
      have h1 := ih (Meters.set ms stage l1) stage
      rw [Meters.get_set_self] at h1
      simp only [runStageUpdates, runUpdates, updateStageMetric, hu]
      rw [h1]
      cases hr : runUpdates l1 rest with
      | none => simp
      | some l2 => simp [Meters.set_set]

/-- Claim C1: for every stage, every metric name `m` configured for that
stage, and every sequence of `update(stage, name, v, w)` calls with positive
weights folded in since the stage's last reset, the sequence succeeds and
`epoch_average(stage)[m]` is exactly the weighted arithmetic mean of the
values supplied for `m` — the sum of `v * w` divided by the sum of `w` over
the calls naming `m` (of which there is at least one). -/
theorem epoch_average_is_weighted_mean (ms : Meters) (stage : Stage) (m : String)
    (mm0 : AverageMeter) (calls : List (String × ℚ × ℚ))
    (hconf : alookup (ms.get stage) m = some mm0)
    (hw : ∀ c ∈ calls, 0 < c.2.2)
    (hne : callsFor calls m ≠ []) :
    ∃ ms1, runStageUpdates (ms.resetStage stage) stage calls = some ms1 ∧
      alookup (getAvgEpochMetrics (ms1.get stage)) m
        = some (weightedSum (callsFor calls m) / totalWeight (callsFor calls m)) := by
  have hres : alookup (resetMeters (ms.get stage)) m = some AverageMeter.init := by
    rw [resetMeters, alookup_map_snd AverageMeter.reset (ms.get stage) m, hconf]
    rfl
  have hwf : ∀ p ∈ callsFor calls m, 0 < p.2 := by
    intro p hp
    simp only [callsFor, List.mem_map, List.mem_filter] at hp
    obtain ⟨c, ⟨hcm, _⟩, hcp⟩ := hp
    rw [← hcp]
    exact hw c hcm
  obtain ⟨ms1, mm1, hrun, hl1, hf⟩ :=
    runUpdates_alookup calls m (resetMeters (ms.get stage)) AverageMeter.init hres hw
  obtain ⟨m1, hf', hsum, hcount, havg, _⟩ :=
    foldUpdates_spec (callsFor calls m) AverageMeter.init hwf
  have hm1 : m1 = mm1 := by
    rw [hf] at hf'
    exact Option.some_inj.mp hf'.symm
  subst hm1
  have hval : m1.value = weightedSum (callsFor calls m) / totalWeight (callsFor calls m) := by
    have h0 : m1.sum = weightedSum (callsFor calls m) := by
      rw [hsum]; simp [AverageMeter.init]
    have h1c : m1.count = totalWeight (callsFor calls m) := by
      rw [hcount]; simp [AverageMeter.init]
    rw [AverageMeter.value, havg hne, h0, h1c]
  refine ⟨(ms.resetStage stage).set stage ms1, ?_, ?_⟩
  · rw [runStageUpdates_eq calls (ms.resetStage stage) stage]
    have hget : (ms.resetStage stage).get stage = resetMeters (ms.get stage) := by
      rw [Meters.resetStage, Meters.get_set_self]
    rw [hget, hrun]
    rfl
  · rw [Meters.get_set_self, getAvgEpochMetrics,
      alookup_map_snd AverageMeter.value ms1 m, hl1, Option.map_some', hval]

/-- Witness for C1 at a concrete input: two updates of the train-stage meter
`loss`, values 2 and 4 with weights 1 and 3, average to (2*1+4*3)/(1+3). -/
theorem epoch_average_is_weighted_mean_witness :
    ∃ ms1, runStageUpdates
        (Meters.resetStage ⟨[("loss", AverageMeter.init)], [], []⟩ Stage.train)
        Stage.train [("loss", 2, 1), ("loss", 4, 3)] = some ms1 ∧
      alookup (getAvgEpochMetrics (ms1.get Stage.train)) "loss"
        = some (weightedSum (callsFor [("loss", 2, 1), ("loss", 4, 3)] "loss")
            / totalWeight (callsFor [("loss", 2, 1), ("loss", 4, 3)] "loss")) :=
  epoch_average_is_weighted_mean ⟨[("loss", AverageMeter.init)], [], []⟩ Stage.train
    "loss" AverageMeter.init [("loss", 2, 1), ("loss", 4, 3)]
    rfl (by decide) (by decide)

/-! Lemmas for the monotonicity of the epoch history. -/

theorem EpochRecord.epoch_updateStage (r : EpochRecord) (stage : Stage)
    (info : List (String × ℚ)) : (r.updateStage stage info).epoch = r.epoch := by
  cases stage <;> rfl

theorem pairwise_lt_le_getLast (l : List ℕ) :
    ∀ b, l.Pairwise (· < ·) → l.getLast? = some b → ∀ x ∈ l, x ≤ b := by
  induction l with
  | nil =>
    intro b _ hb x hx
    simp at hx
  | cons a t ih =>
    intro b hp hb x hx
    cases t with
    | nil =>
      simp at hb hx
      omega
    | cons c t' =>
      rw [List.getLast?_cons_cons] at hb
      rw [List.pairwise_cons] at hp
      obtain ⟨h1, h2⟩ := hp
      rcases List.mem_cons.mp hx with rfl | hx'
      · exact le_of_lt (h1 b (List.mem_of_getLast?_eq_some hb))
      · exact ih b h2 hb x hx'

theorem epochs_dropLast_concat (h : List EpochRecord) (last x : EpochRecord)
    (hl : h.getLast? = some last) (hx : x.epoch = last.epoch) :
    (h.dropLast ++ [x]).map EpochRecord.epoch = h.map EpochRecord.epoch := by
  have h1 : h.dropLast ++ [last] = h :=
    List.dropLast_append_getLast? last (by simp [hl])
  calc (h.dropLast ++ [x]).map EpochRecord.epoch
      = h.dropLast.map EpochRecord.epoch ++ [x.epoch] := by simp
    _ = h.dropLast.map EpochRecord.epoch ++ [last.epoch] := by rw [hx]
    _ = (h.dropLast ++ [last]).map EpochRecord.epoch := by simp
    _ = h.map EpochRecord.epoch := by rw [h1]

theorem runRecords_pairwise_aux (ops : List (ℕ × Stage × List (String × ℚ))) :
    ∀ history : List EpochRecord,
      (history.map EpochRecord.epoch).Pairwise (· < ·) →
      (ops.map (fun o => o.1)).Pairwise (· ≤ ·) →
      (∀ x ∈ history.map EpochRecord.epoch, ∀ o ∈ ops, x ≤ o.1) →
      ((runRecords history ops).map EpochRecord.epoch).Pairwise (· < ·) := by
  induction ops with
  | nil =>
    intro history hs _ _
    simpa [runRecords] using hs
  | cons op rest ih =>
    intro history hs hmono hle
    rw [List.map_cons, List.pairwise_cons] at hmono
    obtain ⟨hop, hmono'⟩ := hmono
    show ((runRecords (recordEpoch history op.1 op.2.1 op.2.2) rest).map
        EpochRecord.epoch).Pairwise (· < ·)
    cases hh : history.getLast? with
    | none =>
      have hhist : history = [] := List.getLast?_eq_none_iff.mp hh
      subst hhist
      apply ih
      · simp [recordEpoch, EpochRecord.epoch_updateStage]
      · exact hmono'
      · intro x hx o ho
        simp only [recordEpoch, List.getLast?_nil, List.nil_append, List.map_cons,
          List.map_nil, EpochRecord.epoch_updateStage, List.mem_singleton] at hx
        rw [hx]
        exact hop o.1 (List.mem_map_of_mem (fun o => o.1) ho)
    | some last =>
      by_cases heq : last.epoch = op.1
      · have hrec : recordEpoch history op.1 op.2.1 op.2.2
            = history.dropLast ++ [last.updateStage op.2.1 op.2.2] := by
          simp [recordEpoch, hh, heq]
        have hmap : (recordEpoch history op.1 op.2.1 op.2.2).map EpochRecord.epoch
            = history.map EpochRecord.epoch := by
          rw [hrec]
          exact epochs_dropLast_concat history last _ hh
            (EpochRecord.epoch_updateStage last op.2.1 op.2.2)
        apply ih
        · rw [hmap]; exact hs
        · exact hmono'
        · intro x hx o ho
          rw [hmap] at hx
          exact hle x hx o (by simp [ho])
      · have hrec : recordEpoch history op.1 op.2.1 op.2.2
            = history ++ [(EpochRecord.empty op.1).updateStage op.2.1 op.2.2] := by
          simp [recordEpoch, hh, heq]
        have hmap : (recordEpoch history op.1 op.2.1 op.2.2).map EpochRecord.epoch
            = history.map EpochRecord.epoch ++ [op.1] := by
          rw [hrec]
          simp [EpochRecord.epoch_updateStage, EpochRecord.empty]
        have hlastep : (history.map EpochRecord.epoch).getLast? = some last.epoch := by
          rw [List.getLast?_map, hh]
          rfl
        have hlt : ∀ x ∈ history.map EpochRecord.epoch, x < op.1 := by
          intro x hx
          have hxle : x ≤ last.epoch := pairwise_lt_le_getLast _ last.epoch hs hlastep x hx
          have hlast_le : last.epoch ≤ op.1 :=
            hle last.epoch (List.mem_of_getLast?_eq_some hlastep) op (by simp)
          omega
        apply ih
        · rw [hmap, List.pairwise_append]
          refine ⟨hs, by simp, ?_⟩
          intro a ha b hb
          rw [List.mem_singleton] at hb
          rw [hb]
          exact hlt a ha
        · exact hmono'
        · intro x hx o ho
          rw [hmap] at hx
          rcases List.mem_append.mp hx with hx' | hx'
          · exact hle x hx' o (by simp [ho])
          · rw [List.mem_singleton] at hx'
            rw [hx']
            exact hop o.1 (List.mem_map_of_mem (fun o => o.1) ho)

/-- Claim C4 as stated is false on the code: `_epoch_end` only compares the
new epoch index against the most recent record, so the non-monotone
`record_epoch` sequence with epoch indices 0, 1, 0 produces the epoch list
[0, 1, 0], which is neither strictly increasing nor duplicate-free. -/
theorem history_epochs_counterexample :
    (runRecords []
        [(0, Stage.train, []), (1, Stage.train, []), (0, Stage.train, [])]).map
        EpochRecord.epoch = [0, 1, 0] ∧
    ¬ ((runRecords []
        [(0, Stage.train, []), (1, Stage.train, []), (0, Stage.train, [])]).map
        EpochRecord.epoch).Pairwise (· < ·) := by
  exact ⟨rfl, by decide⟩

/-- Claim C4 (amended): after every sequence of `record_epoch` operations
whose epoch indices are supplied in nondecreasing order — as the training
loop does, since `current_epoch` never decreases — the Epoch Record history
is strictly monotonically increasing by epoch index, so no two records share
an index. -/
theorem history_epochs_strictly_increasing
    (ops : List (ℕ × Stage × List (String × ℚ)))
    (hmono : (ops.map (fun o => o.1)).Pairwise (· ≤ ·)) :
    ((runRecords [] ops).map EpochRecord.epoch).Pairwise (· < ·) ∧
    ((runRecords [] ops).map EpochRecord.epoch).Nodup := by
  have h := runRecords_pairwise_aux ops [] (by simp) hmono (by simp)
  exact ⟨h, h.imp Nat.ne_of_lt⟩

/-- Witness for C4 (amended) at a concrete input: the nondecreasing epoch
sequence 0, 0, 1 (train and val of epoch 0, then train of epoch 1) yields a
strictly increasing, duplicate-free history. -/
theorem history_epochs_strictly_increasing_witness :
    ((runRecords []
        [(0, Stage.train, []), (0, Stage.val, []), (1, Stage.train, [])]).map
        EpochRecord.epoch).Pairwise (· < ·) ∧
    ((runRecords []
        [(0, Stage.train, []), (0, Stage.val, []), (1, Stage.train, [])]).map
        EpochRecord.epoch).Nodup :=
  history_epochs_strictly_increasing
    [(0, Stage.train, []), (0, Stage.val, []), (1, Stage.train, [])] (by decide)

/-- Claim C8: construction fails for every Best-Metric Spec containing an
entry whose name lacks the `/` stage separator or whose direction string is
not exactly `min` or `max` — malformed entries are rejected at construction
time (no module state is produced), never deferred to update time. -/
theorem mk_module_rejects_bad_spec (trainNames valNames testNames : List String)
    (spec : List (String × String)) (name dir : String)
    (hmem : (name, dir) ∈ spec)
    (hbad : name.toList.contains '/' = false ∨ (dir ≠ "min" ∧ dir ≠ "max")) :
    mkModule trainNames valNames testNames spec = none := by
  have hf : (name.toList.contains '/' && (dir == "min" || dir == "max")) = false := by
    rcases hbad with h | ⟨h1, h2⟩
    · rw [h, Bool.false_and]
    · rw [beq_eq_false_iff_ne.mpr h1, beq_eq_false_iff_ne.mpr h2,
        Bool.or_false, Bool.and_false]
  have hval : validBestSpec spec = false := by
    rw [validBestSpec, List.all_eq_false]
    refine ⟨(name, dir), hmem, ?_⟩
    show ¬(name.toList.contains '/' && (dir == "min" || dir == "max")) = true
    intro ht
    rw [hf] at ht
    exact Bool.false_ne_true ht
  simp [mkModule, hval]

/-- Witness for C8 at a concrete input: the entry `("valacc", "max")` has no
`/` in its name, so construction fails. -/
theorem mk_module_rejects_bad_spec_witness :
    mkModule ["loss"] ["acc"] ["acc"] [("valacc", "max")] = none :=
  mk_module_rejects_bad_spec ["loss"] ["acc"] ["acc"] [("valacc", "max")]
    "valacc" "max" (by simp) (Or.inl (by decide))

end Omlet
